import Mathlib

/-!
Verification of the feed-reconciliation core of `nyc-subway-rs`
(`src/feed.rs`, `src/render/stop.rs`, with the static data model of
`src/entities.rs`).

The embedding is shallow:

* `f32` values that the core only ever copies (coordinates, colors, the
  display scale) are modelled as rationals; the code performs no arithmetic
  on them.
* `HashMap`/`BTreeMap` collections are modelled as association lists with
  insert-overwrite / remove / lookup helpers.  Iteration order of a Rust
  `HashMap` is unspecified; the list order is a deterministic stand-in, and
  no theorem below depends on the order of entries beyond what the code
  guarantees.
* `u64` timestamps are modelled as `Nat` (the code only compares them).
* Rust panics (`unwrap` on a failed network request / decode failure /
  missing map entry) are modelled by `Option`-valued operations returning
  `none`.
* `Vec::sort`/`sort_by` (a stable sort) is modelled by a stable insertion
  sort `stableSort`; the theorems only use that the result is a sorted
  permutation of the input, which determines it up to tie order.
-/

namespace NycSubway

/-- Stand-in for an `[f32; 3]` color value (carried, never computed with). -/
abbrev Color := ℚ × ℚ × ℚ

/-- Stand-in for a 2-d `f32` coordinate from the static schedule data. -/
abbrev Coordf := ℚ × ℚ

/-- Stand-in for an `[f32; 3]` position. -/
abbrev Pos3 := ℚ × ℚ × ℚ

/-! ### Association-list model of the Rust map collections -/

/-- Lookup in an association list (`HashMap::get` / `BTreeMap::get`). -/
def lookupA {α : Type} (l : List (String × α)) (k : String) : Option α :=
  (l.find? (fun p => p.1 = k)).map Prod.snd

/-- Key membership (`HashMap::contains_key`). -/
def containsKeyA {α : Type} (l : List (String × α)) (k : String) : Bool :=
  l.any (fun p => p.1 = k)

/-- Insert-with-overwrite (`HashMap::insert`): replace in place when the key
is present, otherwise append. -/
def insertA {α : Type} (l : List (String × α)) (k : String) (v : α) :
    List (String × α) :=
  if containsKeyA l k then l.map (fun p => if p.1 = k then (k, v) else p)
  else l ++ [(k, v)]

/-- Key removal (`HashMap::remove`). -/
def removeA {α : Type} (l : List (String × α)) (k : String) : List (String × α) :=
  l.filter (fun p => ¬ p.1 = k)

/-- Insert only when the key is absent (`HashMap::entry(..).or_insert(..)`). -/
def insertIfAbsentA {α : Type} (l : List (String × α)) (k : String) (v : α) :
    List (String × α) :=
  if containsKeyA l k then l else l ++ [(k, v)]

/-! ### Stable sort, embedding `Vec::sort` / `Vec::sort_by` -/

/-- Insert `x` after every element `y` of an (already sorted) list with
`le y x`; together with `stableSort` this is a stable insertion sort. -/
def stableInsert {α : Type} (le : α → α → Bool) (x : α) : List α → List α
  | [] => [x]
  | y :: ys => if le y x then y :: stableInsert le x ys else x :: y :: ys

/-- Stable sort: fold the input left-to-right, inserting each element into
the sorted accumulator.  Models Rust's stable `sort_by` with comparator
`le` (`le a b` meaning "`a` may precede `b`"). -/
def stableSort {α : Type} (le : α → α → Bool) (l : List α) : List α :=
  l.foldl (fun acc x => stableInsert le x acc) []

/-! ### Static data model (`src/entities.rs`) -/

/-- Location kind of a static stop row (`LocationKind`). -/
inductive LocationKind : Type
  | platform
  | station
deriving DecidableEq

/-- A static stop (`Stop`); the render-only `status` and `index` fields are
not consumed by the feed core and are omitted. -/
structure Stop : Type where
  id : String
  kind : LocationKind
  coord : Coordf
  parent : Option String
deriving DecidableEq

/-- A static route (`Route`), with its display color already decoded. -/
structure Route : Type where
  id : String
  color : Color
deriving DecidableEq

/-- Model of `EntityCollection<BTreeMap<String, Stop>>`. -/
abbrev StopsMap := List (String × Stop)

/-- Model of `EntityCollection<HashMap<String, Route>>`. -/
abbrev RoutesMap := List (String × Route)

/-! ### GTFS-realtime message model (the fields `fetch` reads) -/

/-- The `VehicleStopStatus` proto enum. -/
inductive VehicleStopStatus : Type
  | incomingAt
  | stoppedAt
  | inTransitTo
deriving DecidableEq

/-- Trip descriptor: the results of the `trip_id()` / `route_id()` getters
(the getters substitute the proto default for a missing field). -/
structure TripDescriptor : Type where
  trip_id : String
  route_id : String
deriving DecidableEq

/-- Vehicle-position record (the fields read by `fetch`).  `timestamp` and
`current_status` are the getter results. -/
structure VehiclePosition : Type where
  trip : Option TripDescriptor
  stop_id : Option String
  current_status : VehicleStopStatus
  timestamp : Nat
deriving DecidableEq

/-- One stop-time update; `stop_id` is the getter result. -/
structure StopTimeUpdate : Type where
  stop_id : String
deriving DecidableEq

/-- Trip-update record: its trip descriptor and ordered stop-time updates. -/
structure TripUpdate : Type where
  trip : TripDescriptor
  stop_time_update : List StopTimeUpdate
deriving DecidableEq

/-- One feed entity of the message, optionally carrying a vehicle position
and/or a trip update. -/
structure FeedEntityMsg : Type where
  vehicle : Option VehiclePosition
  trip_update : Option TripUpdate
deriving DecidableEq

/-- A decoded feed message: `headerTimestamp` is `msg.header.timestamp()`. -/
structure FeedMessage : Type where
  headerTimestamp : Nat
  entity : List FeedEntityMsg
deriving DecidableEq

/-! ### Feed processor state (`src/feed.rs`) -/

/-- The internal `FeedEntity` record built by `fetch` (its `stop_id` is the
already-resolved canonical station id, and `color` is filled in later by the
`Add` branch of `update`). -/
structure FeedEntity : Type where
  stop_id : String
  route_id : String
  trip_id : String
  timestamp : Nat
  color : Option Color
deriving DecidableEq

/-- A queued diff instruction (`FeedOp`). -/
inductive FeedOp : Type
  | add : FeedEntity → FeedOp
  | remove : String → FeedOp
deriving DecidableEq

/-- Mutable state of one `FeedProcessor` (the shared `stops`/`routes`
references are passed to the operations as parameters; the feed identity
carries no logic). -/
structure FeedProcessor : Type where
  fetched_at : Nat
  queue : List FeedOp
  active_stops : List (String × FeedEntity)
  active_stops_current : List (String × Bool)
deriving DecidableEq

/-- The processor state built by `FeedManager::new` for every feed. -/
def initProc : FeedProcessor :=
  { fetched_at := 0, queue := [], active_stops := [], active_stops_current := [] }

/-- Drain-one (`FeedProcessor::update`): pop the queue front and apply it.
`none` means the queue was empty and no operation was applied (the state is
then unchanged); `some s` is the post-state of an applied operation. -/
def FeedProcessor.update (routes : RoutesMap) (s : FeedProcessor) :
    Option FeedProcessor :=
  match s.queue with
  | [] => none
  | FeedOp.add fe :: rest =>
    match lookupA routes fe.route_id with
    | none => some { s with queue := rest }
    | some route =>
      some { s with
        queue := rest,
        active_stops :=
          insertA s.active_stops fe.trip_id { fe with color := some route.color } }
  | FeedOp.remove trip_id :: rest =>
    some { s with queue := rest, active_stops := removeA s.active_stops trip_id }

/-- Resolution of a raw stop id to the canonical (parent-level) id, written
inline twice in `fetch`: the parent station id when one exists, else the
stop's own id. -/
def staticStopId (stop : Stop) : String :=
  match stop.parent with
  | some p_stop_id => p_stop_id
  | none => stop.id

/-- One step of the entity scan of `fetch`: accumulate the vehicle updates
(vehicles stopped at a known stop) and the latest trip-stop anchor map. -/
def scanEntity (stops : StopsMap)
    (acc : List (String × String) × List FeedEntity) (e : FeedEntityMsg) :
    List (String × String) × List FeedEntity :=
  let acc :=
    match e.vehicle with
    | some vehicle_pos =>
      match vehicle_pos.stop_id, vehicle_pos.trip, vehicle_pos.current_status with
      | some stop_id, some trip, VehicleStopStatus.stoppedAt =>
        match lookupA stops stop_id with
        | some stop =>
          (acc.1,
            acc.2 ++ [{ trip_id := trip.trip_id,
                        timestamp := vehicle_pos.timestamp,
                        route_id := trip.route_id,
                        stop_id := staticStopId stop,
                        color := none }])
        | none => acc
      | _, _, _ => acc
    | none => acc
  match e.trip_update with
  | some trip_update =>
    match trip_update.stop_time_update.head? with
    | some stop_update =>
      match lookupA stops stop_update.stop_id with
      | some stop =>
        (insertA acc.1 trip_update.trip.trip_id (staticStopId stop), acc.2)
      | none => acc
    | none => acc
  | none => acc

/-- The survivor map of `fetch`: vehicle updates whose canonical stop equals
the trip's anchored stop, folded into a map keyed by trip id (later
duplicates overwrite earlier ones, as `HashMap::insert` does). -/
def currentStopped (latest_trip_stop : List (String × String))
    (vehicle_updates : List FeedEntity) : List (String × FeedEntity) :=
  (vehicle_updates.filter (fun fe =>
      match lookupA latest_trip_stop fe.trip_id with
      | some latest_stop_id => latest_stop_id = fe.stop_id
      | none => false)).foldl
    (fun acc fe => insertA acc fe.trip_id fe) []

/-- One step of the remove loop of `fetch`. -/
def removeStep (current_stopped : List (String × FeedEntity))
    (acc : List (String × Bool) × List FeedOp) (prev : String) :
    List (String × Bool) × List FeedOp :=
  if containsKeyA current_stopped prev then acc
  else (removeA acc.1 prev, acc.2 ++ [FeedOp.remove prev])

/-- The remove loop of `fetch`: iterate over a snapshot of the current
membership keys, dropping and enqueueing a `Remove` for every trip absent
from the survivor map. -/
def removePhase (current_stopped : List (String × FeedEntity))
    (cur : List (String × Bool)) (queue : List FeedOp) :
    List (String × Bool) × List FeedOp :=
  (cur.map Prod.fst).foldl (removeStep current_stopped) (cur, queue)

/-- One step of the add loop of `fetch`. -/
def addStep (acc : List (String × Bool) × List FeedOp) (entity : FeedEntity) :
    List (String × Bool) × List FeedOp :=
  if containsKeyA acc.1 entity.trip_id then acc
  else (insertA acc.1 entity.trip_id true, acc.2 ++ [FeedOp.add entity])

/-- The add loop of `fetch`: enqueue an `Add` for every survivor trip not
already a member, marking membership immediately. -/
def addPhase (current_stopped : List (String × FeedEntity))
    (cur : List (String × Bool)) (queue : List FeedOp) :
    List (String × Bool) × List FeedOp :=
  (current_stopped.map Prod.snd).foldl addStep (cur, queue)

/-- The survivor map computed by `fetch` for a decoded message: scan the
entities, then keep the vehicles stopped at their trip's anchored canonical
stop. -/
def survivors (stops : StopsMap) (msg : FeedMessage) : List (String × FeedEntity) :=
  let scanned := msg.entity.foldl (scanEntity stops) ([], [])
  currentStopped scanned.1 scanned.2

/-- Refresh (`FeedProcessor::fetch`).  The network interaction is a
parameter: `input = none` models a failed request / body read / protobuf
decode, on each of which the source calls `.unwrap()` and panics — modelled
by the `none` result.  `input = some msg` is a successfully decoded
message.  (The source writes `fetched_at` before the scan; nothing in the
scan reads it, so the single record update has the same net effect.) -/
def FeedProcessor.fetch (stops : StopsMap) (input : Option FeedMessage)
    (s : FeedProcessor) : Option FeedProcessor :=
  match input with
  | none => none
  | some msg =>
    if s.fetched_at ≥ msg.headerTimestamp then some s
    else
      let cs := survivors stops msg
      let r := removePhase cs s.active_stops_current s.queue
      let a := addPhase cs r.1 r.2
      some { s with
        fetched_at := msg.headerTimestamp,
        active_stops_current := a.1,
        queue := a.2 }

/-! ### Render-facing records (`src/render/stop.rs`) -/

/-- One render instance (`StopInstance`). -/
structure StopInstance : Type where
  position : Pos3
  color : Color
  scale : ℚ
deriving DecidableEq

/-- The `Default` impl of `StopInstance`. -/
def StopInstance.dflt : StopInstance :=
  { position := (0, 0, 0), color := (1, 1, 1), scale := 0 }

/-- Activation state of one station record (`StopState`). -/
inductive StopState : Type
  | inactive : StopInstance → StopState
  | active : StopInstance → StopState
deriving DecidableEq

/-- The `From<StopState> for StopInstance` conversion. -/
def StopState.toInstance : StopState → StopInstance
  | StopState.inactive a => a
  | StopState.active a => a

/-- Boolean "may precede" relation of the manual `Ord for StopState`:
`Inactive` compares below `Active`. -/
def stopStateLe : StopState → StopState → Bool
  | StopState.inactive _, _ => true
  | StopState.active _, StopState.active _ => true
  | StopState.active _, StopState.inactive _ => false

/-- Test for an `Active` record. -/
def StopState.isActive : StopState → Bool
  | StopState.active _ => true
  | StopState.inactive _ => false

/-! ### Feed manager (`FeedManager`) -/

/-- Descending-timestamp comparison used by the merge
(`sort_by(|a, b| b.timestamp.cmp(&a.timestamp))` as a "may precede"
predicate). -/
def feLeDesc (a b : FeedEntity) : Bool := b.timestamp ≤ a.timestamp

/-- All active entries across every processor
(`feeds.iter().flat_map(|feed| feed.active_stops.values())`). -/
def allActiveEntries (feeds : List FeedProcessor) : List FeedEntity :=
  feeds.flatMap (fun f => f.active_stops.map Prod.snd)

/-- The merge fold of `FeedManager::update`: sort all active entries by
timestamp descending, then keep the first entry seen per canonical station
id. -/
def mergeActive (feeds : List FeedProcessor) : List (String × FeedEntity) :=
  (stableSort feLeDesc (allActiveEntries feeds)).foldl
    (fun acc fe => insertIfAbsentA acc fe.stop_id fe) []

/-- The list of canonical (parent-level) station ids computed by
`FeedManager::new` (`stops.values().filter_map(..)` keeps the stops without
a parent). -/
def parentStops (stops : StopsMap) : List String :=
  ((stops.map Prod.snd).filter (fun s => s.parent = none)).map Stop.id

/-- Emit the record for one canonical station: `Inactive` with the static
position and defaults when the station is absent from the merge result,
`Active` with the static position, the winning entry's color and scale 0.5
otherwise.  `none` models the panics of `stops.get(..).unwrap()` and
`feed_entity.color.unwrap()`. -/
def emitRecord (stops : StopsMap) (sorted_stops : List (String × FeedEntity))
    (stop_id : String) : Option StopState :=
  if containsKeyA sorted_stops stop_id = false then
    match lookupA stops stop_id with
    | none => none
    | some stop =>
      some (StopState.inactive
        { StopInstance.dflt with position := (stop.coord.1, stop.coord.2, 0) })
  else
    match lookupA sorted_stops stop_id, lookupA stops stop_id with
    | some feed_entity, some stop =>
      match feed_entity.color with
      | some c =>
        some (StopState.active
          { position := (stop.coord.1, stop.coord.2, 0), color := c, scale := 1/2 })
      | none => none
    | _, _ => none

/-- Emit the records of all canonical stations in order, failing (panicking)
as soon as one record fails. -/
def emitAll (stops : StopsMap) (sorted_stops : List (String × FeedEntity)) :
    List String → Option (List StopState)
  | [] => some []
  | stop_id :: rest =>
    match emitRecord stops sorted_stops stop_id, emitAll stops sorted_stops rest with
    | some r, some rs => some (r :: rs)
    | _, _ => none

/-- The per-publish snapshot computation of `FeedManager::update`, up to the
final state-sort: merge, emit one record per canonical station, sort with
all `Inactive` before all `Active`. -/
def buildStates (stops : StopsMap) (parent_stops : List String)
    (feeds : List FeedProcessor) : Option (List StopState) :=
  (emitAll stops (mergeActive feeds) parent_stops).map (stableSort stopStateLe)

/-- The published snapshot: the sorted records converted to plain
`StopInstance` values (`map(StopInstance::from)`). -/
def buildSnapshot (stops : StopsMap) (parent_stops : List String)
    (feeds : List FeedProcessor) : Option (List StopInstance) :=
  (buildStates stops parent_stops feeds).map (fun l => l.map StopState.toInstance)

/-- State of the `FeedManager` (the shared collections, the derived parent
list and the output channel are parameters of `update`). -/
structure FeedManager : Type where
  feeds : List FeedProcessor
  feed_idx : Nat
deriving DecidableEq

/-- Observable outcome of one manager tick: the new processor states, the
snapshots published on the channel (in order), the number of `drain-one`
calls that applied an operation, and the number of network refreshes. -/
structure TickResult : Type where
  feeds : List FeedProcessor
  published : List (List StopInstance)
  applied : Nat
  fetches : Nat
deriving DecidableEq

/-- The batch size of one tick: `(len as f32 / 10.).ceil().max(1.) as u32`,
i.e. `max 1 ⌈len / 10⌉`.  (The `f32` round-trip is exact for every queue
length below `2 ^ 21`, far beyond any reachable queue.) -/
def batchSize (queueLen : Nat) : Nat := max 1 ((queueLen + 9) / 10)

/-- The batch loop body of `FeedManager::update`, run `fuel` times on the
processor at `idx`: drain one operation and, when one was applied, rebuild
and publish the merged snapshot; when none was applied, refresh from the
network, drain once more and stop.  `none` models the panics (out-of-range
index, fetch failure, color unwrap inside the merge). -/
def tickLoop (stops : StopsMap) (routes : RoutesMap) (parent_stops : List String)
    (input : Option FeedMessage) (idx : Nat) :
    Nat → List FeedProcessor → Option TickResult
  | 0, feeds => some { feeds := feeds, published := [], applied := 0, fetches := 0 }
  | fuel + 1, feeds =>
    match feeds[idx]? with
    | none => none
    | some feed =>
      match feed.update routes with
      | some feed1 =>
        let feeds1 := feeds.set idx feed1
        match buildSnapshot stops parent_stops feeds1 with
        | none => none
        | some snap =>
          (tickLoop stops routes parent_stops input idx fuel feeds1).map
            (fun r => { r with published := snap :: r.published, applied := r.applied + 1 })
      | none =>
        match feed.fetch stops input with
        | none => none
        | some feedF =>
          match feedF.update routes with
          | some feedF1 =>
            some { feeds := feeds.set idx feedF1, published := [],
                   applied := 1, fetches := 1 }
          | none =>
            some { feeds := feeds.set idx feedF, published := [],
                   applied := 0, fetches := 1 }

/-- The round-robin cursor after the wrap at the top of the tick. -/
def FeedManager.wrappedIdx (m : FeedManager) : Nat :=
  if m.feed_idx ≥ m.feeds.length then 0 else m.feed_idx

/-- One manager tick (`FeedManager::update`): wrap the cursor, compute the
batch from the selected feed's queue length, run the batch loop and advance
the cursor. -/
def FeedManager.update (stops : StopsMap) (routes : RoutesMap)
    (parent_stops : List String) (input : Option FeedMessage)
    (m : FeedManager) : Option (FeedManager × TickResult) :=
  let idx := m.wrappedIdx
  match m.feeds[idx]? with
  | none => none
  | some feed =>
    (tickLoop stops routes parent_stops input idx (batchSize feed.queue.length)
        m.feeds).map
      (fun r => ({ feeds := r.feeds, feed_idx := idx + 1 }, r))

/-! ### Step sequences on one processor -/

/-- One externally driven step on a processor: a refresh that decoded the
given message, or one drain-one call. -/
inductive ProcStep : Type
  | fetchMsg : FeedMessage → ProcStep
  | drain : ProcStep
deriving DecidableEq

/-- Apply one step.  A successfully decoded `fetch` never panics, and a
drain of an empty queue leaves the state unchanged, so `getD` is exact
here. -/
def applyStep (stops : StopsMap) (routes : RoutesMap) (s : FeedProcessor) :
    ProcStep → FeedProcessor
  | ProcStep.fetchMsg msg => (s.fetch stops (some msg)).getD s
  | ProcStep.drain => (s.update routes).getD s

/-- Run a sequence of steps. -/
def runSteps (stops : StopsMap) (routes : RoutesMap) :
    List ProcStep → FeedProcessor → FeedProcessor
  | [], s => s
  | step :: rest, s => runSteps stops routes rest (applyStep stops routes s step)

/-! ### Concrete data used by witnesses and counterexamples -/

/-- A canonical (parent-less) station with id `A`. -/
def stopA : Stop := { id := "A", kind := LocationKind.station, coord := (0, 0), parent := none }

/-- A canonical (parent-less) station with id `B`. -/
def stopB : Stop := { id := "B", kind := LocationKind.station, coord := (1, 1), parent := none }

/-- A two-station static stop collection. -/
def stopsEx : StopsMap := [("A", stopA), ("B", stopB)]

/-- A route `R` with color red. -/
def routeR : Route := { id := "R", color := (1, 0, 0) }

/-- A one-route static route collection. -/
def routesEx : RoutesMap := [("R", routeR)]

/-- A feed message with header timestamp `t` whose single entity reports
trip `T1` (route `R`) stopped at `stop`, with a matching trip-update anchor
at `stop`. -/
def msgAt (t : Nat) (stop : String) : FeedMessage :=
  { headerTimestamp := t,
    entity := [{ vehicle := some { trip := some { trip_id := "T1", route_id := "R" },
                                   stop_id := some stop,
                                   current_status := VehicleStopStatus.stoppedAt,
                                   timestamp := t },
                 trip_update := some { trip := { trip_id := "T1", route_id := "R" },
                                       stop_time_update := [{ stop_id := stop }] } }] }

/-- The processor state after one accepted fetch of `msgAt 1 "A"`. -/
def procA1 : FeedProcessor :=
  (initProc.fetch stopsEx (some (msgAt 1 "A"))).getD initProc

/-- Processor state after the direct relocation scenario: trip `T1` reported
at `A` (drained), then at `B` (drained). -/
def procAB : FeedProcessor :=
  runSteps stopsEx routesEx
    [ProcStep.fetchMsg (msgAt 1 "A"), ProcStep.drain,
     ProcStep.fetchMsg (msgAt 2 "B"), ProcStep.drain] initProc

/-- A queued entry whose route id `X` is absent from `routesEx`. -/
def feU : FeedEntity :=
  { stop_id := "A", route_id := "X", trip_id := "T1", timestamp := 1, color := none }

/-- A queued entry whose route id `R` is present in `routesEx`. -/
def feR : FeedEntity :=
  { stop_id := "A", route_id := "R", trip_id := "T1", timestamp := 1, color := none }

/-- A processor whose queue holds one `Add` with an unknown route. -/
def procQU : FeedProcessor := { initProc with queue := [FeedOp.add feU] }

/-- A processor whose queue holds one `Add` with a known route. -/
def procQR : FeedProcessor := { initProc with queue := [FeedOp.add feR] }

/-- An active entry of trip `T1` at station `A` with timestamp 1. -/
def eW1 : FeedEntity :=
  { stop_id := "A", route_id := "R", trip_id := "T1", timestamp := 1, color := some (1, 0, 0) }

/-- An active entry of trip `T2` at station `A` with timestamp 2. -/
def eW2 : FeedEntity :=
  { stop_id := "A", route_id := "R", trip_id := "T2", timestamp := 2, color := some (1, 0, 0) }

/-- A processor with two active entries for station `A`, timestamps 1 and 2. -/
def procW : FeedProcessor :=
  { fetched_at := 2, queue := [],
    active_stops := [("T1", eW1), ("T2", eW2)],
    active_stops_current := [("T1", true), ("T2", true)] }

/-- A one-feed manager whose processor has a non-empty queue. -/
def mgrQ : FeedManager := { feeds := [procQR], feed_idx := 0 }

/-- The manager/tick-result pair of one tick on a fresh one-feed manager fed
with `msgAt 1 "A"` (an empty-queue visit: refresh plus one extra drain). -/
def c2Pair : FeedManager × TickResult :=
  (FeedManager.update stopsEx routesEx (parentStops stopsEx) (some (msgAt 1 "A"))
      { feeds := [initProc], feed_idx := 0 }).getD
    ({ feeds := [], feed_idx := 0 },
     { feeds := [], published := [], applied := 0, fetches := 0 })

/-- The station records emitted for `stopsEx` when no station is active. -/
def c8Records : List StopState :=
  [StopState.inactive { position := (0, 0, 0), color := (1, 1, 1), scale := 0 },
   StopState.inactive { position := (1, 1, 0), color := (1, 1, 1), scale := 0 }]

/-! ### Lemmas about the association-list operations -/

/-- A successful lookup returns a pair of the list. -/
theorem lookupA_mem {α : Type} {l : List (String × α)} {k : String} {v : α}
    (h : lookupA l k = some v) : (k, v) ∈ l := by
  unfold lookupA at h
  obtain ⟨p, hp, hv⟩ := Option.map_eq_some'.mp h
  have hk := List.find?_some hp
  have hm := List.mem_of_find?_eq_some hp
  simp only [decide_eq_true_eq] at hk
  have : p = (k, v) := by
    cases p with
    | mk a b => simp_all
  rwa [this] at hm

/-- Key membership is lookup success. -/
theorem containsKeyA_iff {α : Type} (l : List (String × α)) (k : String) :
    containsKeyA l k = true ↔ ∃ p ∈ l, p.1 = k := by
  simp [containsKeyA, List.any_eq_true]

/-- Lookup succeeds exactly on contained keys. -/
theorem lookupA_isSome_iff {α : Type} (l : List (String × α)) (k : String) :
    (lookupA l k).isSome = true ↔ containsKeyA l k = true := by
  simp [lookupA, containsKeyA, List.find?_isSome, List.any_eq_true]

/-- Every pair of an insert-with-overwrite is the inserted pair or an
original pair. -/
theorem mem_insertA {α : Type} {l : List (String × α)} {k : String} {v : α}
    {q : String × α} (h : q ∈ insertA l k v) : q = (k, v) ∨ q ∈ l := by
  unfold insertA at h
  by_cases hc : containsKeyA l k = true
  · rw [if_pos hc] at h
    obtain ⟨p, hp, hq⟩ := List.mem_map.mp h
    by_cases hpk : p.1 = k
    · rw [if_pos hpk] at hq
      exact Or.inl hq.symm
    · rw [if_neg hpk] at hq
      exact Or.inr (hq ▸ hp)
  · rw [if_neg hc] at h
    rcases List.mem_append.mp h with h1 | h1
    · exact Or.inr h1
    · simp at h1
      exact Or.inl (by simp [h1])

/-- Insert-with-overwrite preserves key membership. -/
theorem containsKeyA_insertA_of {α : Type} {l : List (String × α)} {k k1 : String}
    {v : α} (h : containsKeyA l k1 = true) :
    containsKeyA (insertA l k v) k1 = true := by
  rw [containsKeyA_iff] at h ⊢
  obtain ⟨p, hp, hk⟩ := h
  unfold insertA
  by_cases hc : containsKeyA l k = true
  · rw [if_pos hc]
    by_cases hpk : p.1 = k
    · exact ⟨(k, v), List.mem_map.mpr ⟨p, hp, by rw [if_pos hpk]⟩, by simp [← hpk, hk]⟩
    · exact ⟨p, List.mem_map.mpr ⟨p, hp, by rw [if_neg hpk]⟩, hk⟩
  · rw [if_neg hc]
    exact ⟨p, List.mem_append.mpr (Or.inl hp), hk⟩

/-- The inserted key is contained after an insert-with-overwrite. -/
theorem containsKeyA_insertA_self {α : Type} (l : List (String × α)) (k : String)
    (v : α) : containsKeyA (insertA l k v) k = true := by
  unfold insertA
  by_cases hc : containsKeyA l k = true
  · rw [if_pos hc]
    rw [containsKeyA_iff] at hc ⊢
    obtain ⟨p, hp, hk⟩ := hc
    exact ⟨(k, v), List.mem_map.mpr ⟨p, hp, by rw [if_pos hk]⟩, rfl⟩
  · rw [if_neg hc, containsKeyA_iff]
    exact ⟨(k, v), List.mem_append.mpr (Or.inr (by simp)), rfl⟩

/-- Removal only drops pairs. -/
theorem mem_removeA {α : Type} {l : List (String × α)} {k : String}
    {q : String × α} (h : q ∈ removeA l k) : q ∈ l :=
  List.mem_of_mem_filter h

/-- Removing one key leaves other keys' membership intact. -/
theorem containsKeyA_removeA_of {α : Type} {l : List (String × α)} {k k1 : String}
    (hne : k1 ≠ k) (h : containsKeyA l k1 = true) :
    containsKeyA (removeA l k) k1 = true := by
  rw [containsKeyA_iff] at h ⊢
  obtain ⟨p, hp, hk⟩ := h
  refine ⟨p, List.mem_filter.mpr ⟨hp, ?_⟩, hk⟩
  simp [hk, hne]

/-! ### Lemmas about the stable sort -/

/-- Stable insertion produces a permutation of consing. -/
theorem stableInsert_perm {α : Type} (le : α → α → Bool) (x : α) :
    ∀ l : List α, (stableInsert le x l).Perm (x :: l)
  | [] => List.Perm.refl _
  | y :: ys => by
    unfold stableInsert
    by_cases h : le y x = true
    · rw [if_pos h]
      exact ((stableInsert_perm le x ys).cons y).trans (List.Perm.swap x y ys)
    · rw [if_neg h]

/-- The stable sort permutes its input. -/
theorem stableSort_perm {α : Type} (le : α → α → Bool) (l : List α) :
    (stableSort le l).Perm l := by
  suffices h : ∀ (l acc : List α),
      (l.foldl (fun acc x => stableInsert le x acc) acc).Perm (l ++ acc) by
    simpa using h l []
  intro l
  induction l with
  | nil => intro acc; simp
  | cons x xs ih =>
    intro acc
    have h1 := ih (stableInsert le x acc)
    have h2 : (xs ++ stableInsert le x acc).Perm (xs ++ x :: acc) :=
      List.Perm.append_left xs (stableInsert_perm le x acc)
    have h3 : (xs ++ x :: acc).Perm (x :: (xs ++ acc)) := List.perm_middle
    simp only [List.foldl_cons]
    exact (h1.trans (h2.trans h3))

/-- Stable insertion into a sorted list stays sorted, for a total transitive
comparison. -/
theorem pairwise_stableInsert {α : Type} {le : α → α → Bool}
    (htot : ∀ a b, le a b = false → le b a = true)
    (htrans : ∀ a b c, le a b = true → le b c = true → le a c = true)
    (x : α) : ∀ {l : List α}, l.Pairwise (fun a b => le a b = true) →
      (stableInsert le x l).Pairwise (fun a b => le a b = true)
  | [], _ => List.pairwise_singleton _ _
  | y :: ys, h => by
    rw [List.pairwise_cons] at h
    obtain ⟨hy, hys⟩ := h
    unfold stableInsert
    by_cases hle : le y x = true
    · rw [if_pos hle, List.pairwise_cons]
      refine ⟨?_, pairwise_stableInsert htot htrans x hys⟩
      intro z hz
      have hz2 : z ∈ x :: ys := ((stableInsert_perm le x ys).mem_iff).mp hz
      rcases List.mem_cons.mp hz2 with hz3 | hz3
      · exact hz3 ▸ hle
      · exact hy z hz3
    · rw [if_neg hle, List.pairwise_cons]
      have hxy : le x y = true := htot y x (by simpa using hle)
      refine ⟨?_, List.pairwise_cons.mpr ⟨hy, hys⟩⟩
      intro z hz
      rcases List.mem_cons.mp hz with hz | hz
      · exact hz ▸ hxy
      · exact htrans x y z hxy (hy z hz)

/-- The stable sort sorts, for a total transitive comparison. -/
theorem pairwise_stableSort {α : Type} {le : α → α → Bool}
    (htot : ∀ a b, le a b = false → le b a = true)
    (htrans : ∀ a b c, le a b = true → le b c = true → le a c = true)
    (l : List α) : (stableSort le l).Pairwise (fun a b => le a b = true) := by
  suffices h : ∀ (l acc : List α), acc.Pairwise (fun a b => le a b = true) →
      (l.foldl (fun acc x => stableInsert le x acc) acc).Pairwise
        (fun a b => le a b = true) by
    exact h l [] List.Pairwise.nil
  intro l
  induction l with
  | nil => intro acc hacc; exact hacc
  | cons x xs ih =>
    intro acc hacc
    exact ih _ (pairwise_stableInsert htot htrans x hacc)

/-- In a list sorted by `R`, the first element satisfying a predicate is
`R`-related to every other element satisfying it. -/
theorem find?_of_pairwise {α : Type} {R : α → α → Prop} {p : α → Bool} :
    ∀ {l : List α} {e : α}, l.Pairwise R → l.find? p = some e →
      ∀ x ∈ l, p x = true → x = e ∨ R e x
  | [], _, _, h => by simp at h
  | a :: t, e, hpw, hfind => by
    rw [List.pairwise_cons] at hpw
    obtain ⟨ha, ht⟩ := hpw
    rw [List.find?_cons] at hfind
    intro x hx hpx
    by_cases hpa : p a = true
    · simp only [hpa] at hfind
      have hae : a = e := by simpa using hfind
      rcases List.mem_cons.mp hx with hx | hx
      · exact Or.inl (hx.trans hae)
      · exact Or.inr (hae ▸ ha x hx)
    · simp only [Bool.of_not_eq_true hpa] at hfind
      rcases List.mem_cons.mp hx with hx | hx
      · exact absurd (hx ▸ hpx) hpa
      · exact find?_of_pairwise ht hfind x hx hpx

/-! ### Basic facts about `fetch` and `update` (drain-one) -/

/-- A stale or duplicate header timestamp makes `fetch` a no-op. -/
theorem fetch_stale {msg : FeedMessage} (stops : StopsMap) (s : FeedProcessor)
    (h : msg.headerTimestamp ≤ s.fetched_at) :
    s.fetch stops (some msg) = some s := by
  simp only [FeedProcessor.fetch]
  split
  · rfl
  · omega

/-- The accepted branch of `fetch`, written out. -/
theorem fetch_accept_eq (stops : StopsMap) (msg : FeedMessage) (s : FeedProcessor)
    (h : s.fetched_at < msg.headerTimestamp) :
    s.fetch stops (some msg) = some
      { s with
        fetched_at := msg.headerTimestamp,
        active_stops_current := (addPhase (survivors stops msg)
            (removePhase (survivors stops msg) s.active_stops_current s.queue).1
            (removePhase (survivors stops msg) s.active_stops_current s.queue).2).1,
        queue := (addPhase (survivors stops msg)
            (removePhase (survivors stops msg) s.active_stops_current s.queue).1
            (removePhase (survivors stops msg) s.active_stops_current s.queue).2).2 } := by
  simp only [FeedProcessor.fetch]
  split
  · omega
  · rfl

/-- A `fetch` of a decoded message never panics. -/
theorem fetch_isSome (stops : StopsMap) (msg : FeedMessage) (s : FeedProcessor) :
    (s.fetch stops (some msg)).isSome = true := by
  rcases Nat.lt_or_ge s.fetched_at msg.headerTimestamp with h | h
  · rw [fetch_accept_eq stops msg s h]; rfl
  · rw [fetch_stale stops s h]; rfl

/-- After any successful `fetch` of a message, the processor's last-accepted
timestamp is at least the message's header timestamp. -/
theorem fetch_headerTimestamp_le {stops : StopsMap} {msg : FeedMessage}
    {s s' : FeedProcessor} (h : s.fetch stops (some msg) = some s') :
    msg.headerTimestamp ≤ s'.fetched_at := by
  rcases Nat.lt_or_ge s.fetched_at msg.headerTimestamp with hlt | hge
  · rw [fetch_accept_eq stops msg s hlt] at h
    cases h
    exact Nat.le_refl _
  · rw [fetch_stale stops s hge] at h
    cases h
    exact hge

/-- A `fetch` never touches the active set. -/
theorem fetch_active_stops {stops : StopsMap} {msg : FeedMessage}
    {s s' : FeedProcessor} (h : s.fetch stops (some msg) = some s') :
    s'.active_stops = s.active_stops := by
  rcases Nat.lt_or_ge s.fetched_at msg.headerTimestamp with hlt | hge
  · rw [fetch_accept_eq stops msg s hlt] at h
    cases h
    rfl
  · rw [fetch_stale stops s hge] at h
    cases h
    rfl

/-- Drain-one on an empty queue applies nothing. -/
theorem update_nil_eq (routes : RoutesMap) {s : FeedProcessor}
    (hq : s.queue = []) : s.update routes = none := by
  unfold FeedProcessor.update
  rw [hq]

/-- Drain-one of an `Add` with unknown route. -/
theorem update_add_unknown_eq (routes : RoutesMap) {s : FeedProcessor}
    {fe : FeedEntity} {rest : List FeedOp}
    (hq : s.queue = FeedOp.add fe :: rest)
    (hr : lookupA routes fe.route_id = none) :
    s.update routes = some { s with queue := rest } := by
  unfold FeedProcessor.update
  rw [hq]
  simp [hr]

/-- Drain-one of an `Add` with known route. -/
theorem update_add_known_eq (routes : RoutesMap) {s : FeedProcessor}
    {fe : FeedEntity} {rest : List FeedOp} {route : Route}
    (hq : s.queue = FeedOp.add fe :: rest)
    (hr : lookupA routes fe.route_id = some route) :
    s.update routes = some { s with
      queue := rest,
      active_stops := insertA s.active_stops fe.trip_id
        { fe with color := some route.color } } := by
  unfold FeedProcessor.update
  rw [hq]
  simp [hr]

/-- Drain-one of a `Remove`. -/
theorem update_remove_eq (routes : RoutesMap) {s : FeedProcessor}
    {t : String} {rest : List FeedOp}
    (hq : s.queue = FeedOp.remove t :: rest) :
    s.update routes = some { s with
      queue := rest,
      active_stops := removeA s.active_stops t } := by
  unfold FeedProcessor.update
  rw [hq]

/-- Drain-one applies no operation exactly on an empty queue. -/
theorem update_none_iff (routes : RoutesMap) (s : FeedProcessor) :
    s.update routes = none ↔ s.queue = [] := by
  constructor
  · intro h
    cases hq : s.queue with
    | nil => rfl
    | cons op rest =>
      cases op with
      | add fe =>
        cases hr : lookupA routes fe.route_id with
        | none => rw [update_add_unknown_eq routes hq hr] at h; cases h
        | some route => rw [update_add_known_eq routes hq hr] at h; cases h
      | remove t => rw [update_remove_eq routes hq] at h; cases h
  · intro hq
    exact update_nil_eq routes hq

/-- Drain-one pops the queue front (FIFO), whatever the operation. -/
theorem update_queue_tail (routes : RoutesMap) {s s1 : FeedProcessor}
    (h : s.update routes = some s1) : s1.queue = s.queue.tail := by
  cases hq : s.queue with
  | nil => rw [update_nil_eq routes hq] at h; cases h
  | cons op rest =>
    cases op with
    | add fe =>
      cases hr : lookupA routes fe.route_id with
      | none => rw [update_add_unknown_eq routes hq hr] at h; cases h; simp [hq]
      | some route => rw [update_add_known_eq routes hq hr] at h; cases h; simp [hq]
    | remove t => rw [update_remove_eq routes hq] at h; cases h; simp [hq]

/-- Case analysis of an applied drain-one: an `Add` with unknown route keeps
the active set, an `Add` with known route inserts the colored entry, a
`Remove` deletes the trip's entry. -/
theorem update_cases (routes : RoutesMap) {s s1 : FeedProcessor}
    (h : s.update routes = some s1) :
    (∃ fe, s.queue.head? = some (FeedOp.add fe) ∧
        lookupA routes fe.route_id = none ∧ s1.active_stops = s.active_stops)
    ∨ (∃ fe route, s.queue.head? = some (FeedOp.add fe) ∧
        lookupA routes fe.route_id = some route ∧
        s1.active_stops = insertA s.active_stops fe.trip_id
          { fe with color := some route.color })
    ∨ (∃ t, s.queue.head? = some (FeedOp.remove t) ∧
        s1.active_stops = removeA s.active_stops t) := by
  cases hq : s.queue with
  | nil => rw [update_nil_eq routes hq] at h; cases h
  | cons op rest =>
    cases op with
    | add fe =>
      cases hr : lookupA routes fe.route_id with
      | none =>
        rw [update_add_unknown_eq routes hq hr] at h
        cases h
        exact Or.inl ⟨fe, by simp [hq], hr, rfl⟩
      | some route =>
        rw [update_add_known_eq routes hq hr] at h
        cases h
        exact Or.inr (Or.inl ⟨fe, route, by simp [hq], hr, rfl⟩)
    | remove t =>
      rw [update_remove_eq routes hq] at h
      cases h
      exact Or.inr (Or.inr ⟨t, by simp [hq], rfl⟩)

/-! ### Claim C1 -/

/-- C1 counterexample: a failed network request or undecodable payload does
not leave the processor unchanged for a retry — the `.unwrap()` calls in
`fetch` panic, modelled by the `none` result, so the worker crashes. -/
theorem c1_counterexample_fetch_failure_panics :
    FeedProcessor.fetch stopsEx none initProc = none := rfl

/-- C1 (amended): for every feed processor, when the network request fails
or the payload fails to decode, `fetch` panics (crashing the worker) instead
of dropping the cycle and retrying; no retry state survives. -/
theorem c1_amended_fetch_failure_panics (stops : StopsMap) (s : FeedProcessor) :
    s.fetch stops none = none := rfl

/-! ### Claim C3 -/

/-- C3: `fetch` accepts a decoded message only when its header timestamp is
strictly greater than the last-accepted timestamp — otherwise the whole
state (queue, active set, membership marker, timestamp) is returned
unchanged — and refetching the message that was just submitted (same header
timestamp) is always a no-op, so a duplicate enqueues zero additional
operations. -/
theorem c3_fetch_idempotent (stops : StopsMap) (msg : FeedMessage)
    (s : FeedProcessor) :
    (msg.headerTimestamp ≤ s.fetched_at → s.fetch stops (some msg) = some s) ∧
    (∀ s', s.fetch stops (some msg) = some s' →
      s'.fetch stops (some msg) = some s') := by
  refine ⟨fun h => fetch_stale stops s h, fun s' h => ?_⟩
  exact fetch_stale stops s' (fetch_headerTimestamp_le h)

/-- C3 witness: a duplicate of timestamp 0 is a no-op on the fresh
processor, and refetching `msgAt 1 "A"` right after it was accepted is a
no-op. -/
theorem c3_witness :
    (FeedProcessor.fetch stopsEx (some (msgAt 0 "A")) initProc = some initProc) ∧
    (FeedProcessor.fetch stopsEx (some (msgAt 1 "A")) procA1 = some procA1) :=
  ⟨(c3_fetch_idempotent stopsEx (msgAt 0 "A") initProc).1 (by decide),
   (c3_fetch_idempotent stopsEx (msgAt 1 "A") initProc).2 procA1 (by decide)⟩

/-! ### Claim C7 -/

/-- C7: draining an `Add` whose route id is unknown discards the entry,
leaves the active set unchanged and still reports an applied operation;
with a known route the entry is colored and inserted keyed by trip id. -/
theorem c7_drain_add (routes : RoutesMap) (s : FeedProcessor) (fe : FeedEntity)
    (rest : List FeedOp) (h : s.queue = FeedOp.add fe :: rest) :
    (lookupA routes fe.route_id = none →
      s.update routes = some { s with queue := rest }) ∧
    (∀ route, lookupA routes fe.route_id = some route →
      s.update routes = some { s with
        queue := rest,
        active_stops := insertA s.active_stops fe.trip_id
          { fe with color := some route.color } }) := by
  exact ⟨fun hr => update_add_unknown_eq routes h hr,
         fun route hr => update_add_known_eq routes h hr⟩

/-- C7 witness: concrete drains of an unknown-route `Add` and a known-route
`Add`. -/
theorem c7_witness :
    (FeedProcessor.update routesEx procQU = some { procQU with queue := [] }) ∧
    (FeedProcessor.update routesEx procQR = some { procQR with
        queue := [],
        active_stops := insertA procQR.active_stops feR.trip_id
          { feR with color := some routeR.color } }) :=
  ⟨(c7_drain_add routesEx procQU feU [] (by decide)).1 (by decide),
   (c7_drain_add routesEx procQR feR [] (by decide)).2 routeR (by decide)⟩

/-! ### The two enqueue loops of `fetch` -/

/-- The remove loop only appends `Remove` operations, all for trips absent
from the survivor map. -/
theorem removeStep_foldl_queue (cs : List (String × FeedEntity)) :
    ∀ (keys : List String) (acc : List (String × Bool) × List FeedOp),
      ∃ ops, (keys.foldl (removeStep cs) acc).2 = acc.2 ++ ops ∧
        ∀ op ∈ ops, ∃ t, op = FeedOp.remove t ∧ containsKeyA cs t = false
  | [], acc => ⟨[], by simp, by simp⟩
  | k :: ks, acc => by
    obtain ⟨ops, hq, hp⟩ := removeStep_foldl_queue cs ks (removeStep cs acc k)
    by_cases hc : containsKeyA cs k = true
    · refine ⟨ops, ?_, hp⟩
      rw [List.foldl_cons, hq]
      simp [removeStep, hc]
    · refine ⟨FeedOp.remove k :: ops, ?_, ?_⟩
      · rw [List.foldl_cons, hq]
        simp [removeStep, hc]
      · intro op hop
        rcases List.mem_cons.mp hop with h | h
        · exact ⟨k, h, by simpa using hc⟩
        · exact hp op h

/-- The remove loop never drops a trip contained in the survivor map. -/
theorem removeStep_foldl_keeps (cs : List (String × FeedEntity)) (t : String)
    (hcs : containsKeyA cs t = true) :
    ∀ (keys : List String) (acc : List (String × Bool) × List FeedOp),
      containsKeyA acc.1 t = true →
      containsKeyA (keys.foldl (removeStep cs) acc).1 t = true
  | [], _, h => h
  | k :: ks, acc, h => by
    rw [List.foldl_cons]
    apply removeStep_foldl_keeps cs t hcs ks
    by_cases hc : containsKeyA cs k = true
    · simpa [removeStep, hc] using h
    · have hne : t ≠ k := fun he => hc (he ▸ hcs)
      simpa [removeStep, hc] using containsKeyA_removeA_of hne h

/-- The add loop only appends `Add` operations, all for survivor entries. -/
theorem addStep_foldl_queue :
    ∀ (entities : List FeedEntity) (acc : List (String × Bool) × List FeedOp),
      ∃ ops, (entities.foldl addStep acc).2 = acc.2 ++ ops ∧
        ∀ op ∈ ops, ∃ e, op = FeedOp.add e ∧ e ∈ entities
  | [], acc => ⟨[], by simp, by simp⟩
  | e :: es, acc => by
    obtain ⟨ops, hq, hp⟩ := addStep_foldl_queue es (addStep acc e)
    by_cases hc : containsKeyA acc.1 e.trip_id = true
    · refine ⟨ops, ?_, ?_⟩
      · rw [List.foldl_cons, hq]
        simp [addStep, hc]
      · intro op hop
        obtain ⟨e1, he1, hm⟩ := hp op hop
        exact ⟨e1, he1, List.mem_cons.mpr (Or.inr hm)⟩
    · refine ⟨FeedOp.add e :: ops, ?_, ?_⟩
      · rw [List.foldl_cons, hq]
        simp [addStep, hc]
      · intro op hop
        rcases List.mem_cons.mp hop with h | h
        · exact ⟨e, h, List.mem_cons.mpr (Or.inl rfl)⟩
        · obtain ⟨e1, he1, hm⟩ := hp op h
          exact ⟨e1, he1, List.mem_cons.mpr (Or.inr hm)⟩

/-- Once a trip is a member, the add loop keeps it a member and never
appends an operation about it. -/
theorem addStep_foldl_member (t : String) :
    ∀ (entities : List FeedEntity) (acc : List (String × Bool) × List FeedOp),
      containsKeyA acc.1 t = true →
      containsKeyA (entities.foldl addStep acc).1 t = true ∧
      ∀ op ∈ (entities.foldl addStep acc).2,
        op ∈ acc.2 ∨ ∃ e, op = FeedOp.add e ∧ e.trip_id ≠ t
  | [], _, h => ⟨h, fun op hop => Or.inl hop⟩
  | e :: es, acc, h => by
    rw [List.foldl_cons]
    by_cases hc : containsKeyA acc.1 e.trip_id = true
    · have hstep : addStep acc e = acc := by simp [addStep, hc]
      rw [hstep]
      exact addStep_foldl_member t es acc h
    · have hne : e.trip_id ≠ t := fun he => hc (he ▸ h)
      have hstep : addStep acc e =
          (insertA acc.1 e.trip_id true, acc.2 ++ [FeedOp.add e]) := by
        simp [addStep, hc]
      rw [hstep]
      obtain ⟨h1, h2⟩ := addStep_foldl_member t es
        (insertA acc.1 e.trip_id true, acc.2 ++ [FeedOp.add e])
        (containsKeyA_insertA_of h)
      refine ⟨h1, fun op hop => ?_⟩
      rcases h2 op hop with hin | hin
      · rcases List.mem_append.mp hin with hin1 | hin1
        · exact Or.inl hin1
        · simp only [List.mem_singleton] at hin1
          exact Or.inr ⟨e, hin1, hne⟩
      · exact Or.inr hin

/-- An accepted (or stale) `fetch` appends all its `Remove` operations
before all its `Add` operations, after the existing queue. -/
theorem fetch_queue_decomp {stops : StopsMap} {msg : FeedMessage}
    {s s' : FeedProcessor} (h : s.fetch stops (some msg) = some s') :
    ∃ rOps aOps, s'.queue = s.queue ++ rOps ++ aOps ∧
      (∀ op ∈ rOps, ∃ u, op = FeedOp.remove u) ∧
      (∀ op ∈ aOps, ∃ e, op = FeedOp.add e) := by
  rcases Nat.lt_or_ge s.fetched_at msg.headerTimestamp with hlt | hge
  · rw [fetch_accept_eq stops msg s hlt] at h
    cases h
    obtain ⟨rOps, hr, hrp⟩ := removeStep_foldl_queue (survivors stops msg)
      (s.active_stops_current.map Prod.fst) (s.active_stops_current, s.queue)
    obtain ⟨aOps, ha, hap⟩ := addStep_foldl_queue
      ((survivors stops msg).map Prod.snd)
      (removePhase (survivors stops msg) s.active_stops_current s.queue)
    refine ⟨rOps, aOps, ?_, fun op hop => ?_, fun op hop => ?_⟩
    · show (addPhase (survivors stops msg)
        (removePhase (survivors stops msg) s.active_stops_current s.queue).1
        (removePhase (survivors stops msg) s.active_stops_current s.queue).2).2 = _
      rw [show (addPhase (survivors stops msg)
          (removePhase (survivors stops msg) s.active_stops_current s.queue).1
          (removePhase (survivors stops msg) s.active_stops_current s.queue).2)
          = ((survivors stops msg).map Prod.snd).foldl addStep
            (removePhase (survivors stops msg) s.active_stops_current s.queue)
        from rfl, ha]
      show (removePhase (survivors stops msg) s.active_stops_current s.queue).2
          ++ aOps = _
      rw [show removePhase (survivors stops msg) s.active_stops_current s.queue
          = (s.active_stops_current.map Prod.fst).foldl
              (removeStep (survivors stops msg))
              (s.active_stops_current, s.queue) from rfl, hr]
    · obtain ⟨u, hu, _⟩ := hrp op hop
      exact ⟨u, hu⟩
    · obtain ⟨e, he, _⟩ := hap op hop
      exact ⟨e, he⟩
  · rw [fetch_stale stops s hge] at h
    cases h
    exact ⟨[], [], by simp, by simp, by simp⟩

/-- A trip that is both a current member and a survivor of the decoded
message generates no operation and stays a member. -/
theorem fetch_member_survivor_stable {stops : StopsMap} {msg : FeedMessage}
    {s s' : FeedProcessor} (t : String)
    (h : s.fetch stops (some msg) = some s')
    (hmem : containsKeyA s.active_stops_current t = true)
    (hsurv : containsKeyA (survivors stops msg) t = true) :
    containsKeyA s'.active_stops_current t = true ∧
    ∀ op ∈ s'.queue, op ∈ s.queue ∨
      ((∀ e, op = FeedOp.add e → e.trip_id ≠ t) ∧ op ≠ FeedOp.remove t) := by
  rcases Nat.lt_or_ge s.fetched_at msg.headerTimestamp with hlt | hge
  · rw [fetch_accept_eq stops msg s hlt] at h
    cases h
    have hrkeep := removeStep_foldl_keeps (survivors stops msg) t hsurv
      (s.active_stops_current.map Prod.fst) (s.active_stops_current, s.queue) hmem
    obtain ⟨rOps, hr, hrp⟩ := removeStep_foldl_queue (survivors stops msg)
      (s.active_stops_current.map Prod.fst) (s.active_stops_current, s.queue)
    obtain ⟨hakeep, haops⟩ := addStep_foldl_member t
      ((survivors stops msg).map Prod.snd)
      (removePhase (survivors stops msg) s.active_stops_current s.queue) hrkeep
    refine ⟨hakeep, fun op hop => ?_⟩
    rcases haops op hop with hin | hin
    · rw [show removePhase (survivors stops msg) s.active_stops_current s.queue
          = (s.active_stops_current.map Prod.fst).foldl
              (removeStep (survivors stops msg))
              (s.active_stops_current, s.queue) from rfl, hr] at hin
      rcases List.mem_append.mp hin with hin1 | hin1
      · exact Or.inl hin1
      · obtain ⟨u, hu, hcu⟩ := hrp op hin1
        have hut : u ≠ t := fun he => by rw [he] at hcu; rw [hcu] at hsurv; cases hsurv
        refine Or.inr ⟨fun e hadd => ?_, fun hrem => ?_⟩
        · rw [hu] at hadd; cases hadd
        · rw [hu] at hrem
          cases hrem
          exact hut rfl
    · obtain ⟨e, he, hne⟩ := hin
      refine Or.inr ⟨fun e1 hadd => ?_, fun hrem => ?_⟩
      · rw [he] at hadd
        cases hadd
        exact hne
      · rw [he] at hrem; cases hrem
  · rw [fetch_stale stops s hge] at h
    cases h
    exact ⟨hmem, fun op hop => Or.inl hop⟩

/-! ### Claim C4 -/

/-- C4 counterexample: with trip `T1` reported stopped at station `A` in the
first accepted message and at station `B` in the next, both fully drained,
the merged snapshot still attributes `A` (not `B`) to the trip — the
membership diff is keyed by trip id only, so the direct relocation enqueues
no operations at all. -/
theorem c4_counterexample_direct_relocation :
    lookupA (mergeActive [procAB]) "B" = none ∧
    lookupA (mergeActive [procAB]) "A" =
      some { stop_id := "A", route_id := "R", trip_id := "T1", timestamp := 1,
             color := some (1, 0, 0) } ∧
    procAB.queue = [] := by decide

/-- C4 (amended): all `Remove` operations of one accepted `fetch` are
enqueued before all its `Add` operations, and `drain-one` consumes the queue
in strict FIFO order; however a trip that is both a current member and a
survivor of the new message (as in a direct `A`-then-`B` relocation)
generates no operation at all and keeps its old association, so the
Remove-then-Add relocation pattern occurs only when an intervening accepted
message omits the trip. -/
theorem c4_amended_queue_order (stops : StopsMap) (routes : RoutesMap)
    (msg : FeedMessage) (s s' : FeedProcessor) (t : String)
    (hf : s.fetch stops (some msg) = some s') :
    (∃ rOps aOps, s'.queue = s.queue ++ rOps ++ aOps ∧
      (∀ op ∈ rOps, ∃ u, op = FeedOp.remove u) ∧
      (∀ op ∈ aOps, ∃ e, op = FeedOp.add e)) ∧
    (∀ p p1 : FeedProcessor, p.update routes = some p1 → p1.queue = p.queue.tail) ∧
    (containsKeyA s.active_stops_current t = true →
      containsKeyA (survivors stops msg) t = true →
      containsKeyA s'.active_stops_current t = true ∧
      ∀ op ∈ s'.queue, op ∈ s.queue ∨
        ((∀ e, op = FeedOp.add e → e.trip_id ≠ t) ∧ op ≠ FeedOp.remove t)) :=
  ⟨fetch_queue_decomp hf,
   fun _ _ h => update_queue_tail routes h,
   fun hmem hsurv => fetch_member_survivor_stable t hf hmem hsurv⟩

/-- C4 witness: the amended theorem applied to the concrete accepted fetch
of `msgAt 1 "A"` on a fresh processor. -/
theorem c4_witness :
    ∃ rOps aOps, procA1.queue = initProc.queue ++ rOps ++ aOps ∧
      (∀ op ∈ rOps, ∃ u, op = FeedOp.remove u) ∧
      (∀ op ∈ aOps, ∃ e, op = FeedOp.add e) :=
  (c4_amended_queue_order stopsEx routesEx (msgAt 1 "A") initProc procA1 "T1"
    (by decide)).1

/-! ### Invariants of the active set -/

/-- Well-formedness of an active-set association list: pairwise-distinct
keys, and every entry stored under its own trip id. -/
def ActiveListWF (l : List (String × FeedEntity)) : Prop :=
  l.Pairwise (fun p q => p.1 ≠ q.1) ∧ ∀ p ∈ l, p.2.trip_id = p.1

/-- Insert-with-overwrite preserves pairwise-distinct keys. -/
theorem pairwise_keys_insertA {α : Type} {l : List (String × α)} {k : String}
    {v : α} (hl : l.Pairwise (fun p q => p.1 ≠ q.1)) :
    (insertA l k v).Pairwise (fun p q => p.1 ≠ q.1) := by
  unfold insertA
  by_cases hc : containsKeyA l k = true
  · rw [if_pos hc]
    have hkey : ∀ p : String × α, ((if p.1 = k then (k, v) else p) : String × α).1 = p.1 := by
      intro p
      by_cases h : p.1 = k <;> simp [h]
    rw [List.pairwise_map]
    exact hl.imp (fun {a b} hab => by rw [hkey a, hkey b]; exact hab)
  · rw [if_neg hc]
    rw [List.pairwise_append]
    refine ⟨hl, List.pairwise_singleton _ _, ?_⟩
    intro a ha b hb
    simp only [List.mem_singleton] at hb
    subst hb
    intro hak
    apply hc
    rw [containsKeyA_iff]
    exact ⟨a, ha, hak⟩

/-- Insert-with-overwrite of a coherent entry preserves well-formedness. -/
theorem activeListWF_insertA {l : List (String × FeedEntity)} {k : String}
    {v : FeedEntity} (hl : ActiveListWF l) (hv : v.trip_id = k) :
    ActiveListWF (insertA l k v) := by
  refine ⟨pairwise_keys_insertA hl.1, fun p hp => ?_⟩
  rcases mem_insertA hp with h | h
  · rw [h]
    exact hv
  · exact hl.2 p h

/-- Removal preserves well-formedness. -/
theorem activeListWF_removeA {l : List (String × FeedEntity)} {k : String}
    (hl : ActiveListWF l) : ActiveListWF (removeA l k) :=
  ⟨List.Pairwise.sublist (List.filter_sublist l) hl.1,
   fun p hp => hl.2 p (mem_removeA hp)⟩

/-- Drain-one preserves the active-set well-formedness. -/
theorem update_activeListWF (routes : RoutesMap) {s s1 : FeedProcessor}
    (h : s.update routes = some s1) (hwf : ActiveListWF s.active_stops) :
    ActiveListWF s1.active_stops := by
  rcases update_cases routes h with ⟨fe, _, _, heq⟩ | ⟨fe, route, _, _, heq⟩ | ⟨t, _, heq⟩
  · rw [heq]; exact hwf
  · rw [heq]; exact activeListWF_insertA hwf rfl
  · rw [heq]; exact activeListWF_removeA hwf

/-- Every step of a processor run preserves active-set well-formedness. -/
theorem runSteps_activeListWF (stops : StopsMap) (routes : RoutesMap) :
    ∀ (steps : List ProcStep) (s : FeedProcessor),
      ActiveListWF s.active_stops →
      ActiveListWF (runSteps stops routes steps s).active_stops
  | [], _, h => h
  | step :: rest, s, h => by
    apply runSteps_activeListWF stops routes rest
    cases step with
    | fetchMsg msg =>
      cases ho : s.fetch stops (some msg) with
      | none => simpa [applyStep, ho] using h
      | some s' =>
        have hs := fetch_active_stops ho
        show ActiveListWF (((s.fetch stops (some msg)).getD s).active_stops)
        rw [ho]
        simpa [hs] using h
    | drain =>
      cases ho : s.update routes with
      | none => simpa [applyStep, ho] using h
      | some s' =>
        have hs := update_activeListWF routes ho h
        show ActiveListWF (((s.update routes).getD s).active_stops)
        rw [ho]
        exact hs

/-! ### Claim C9 -/

/-- C9: over every sequence of `fetch`/`drain-one` calls on one processor
started fresh, the active set never holds two entries with the same trip id
(it is keyed by trip id, each entry stored under its own trip id). -/
theorem c9_at_most_one_per_trip (stops : StopsMap) (routes : RoutesMap)
    (steps : List ProcStep) :
    ((runSteps stops routes steps initProc).active_stops).Pairwise
      (fun p q => p.2.trip_id ≠ q.2.trip_id) := by
  obtain ⟨hpw, hco⟩ := runSteps_activeListWF stops routes steps initProc
    ⟨List.Pairwise.nil, by simp [initProc]⟩
  refine hpw.imp_of_mem ?_
  intro a b ha hb hne
  rw [hco a ha, hco b hb]
  exact hne

/-! ### The color invariant and snapshot success -/

/-- Every entry of the list carries a resolved color. -/
def ColorsListOK (l : List (String × FeedEntity)) : Prop :=
  ∀ p ∈ l, p.2.color.isSome = true

/-- Every processor's active set carries only resolved colors. -/
def ColorsOK (feeds : List FeedProcessor) : Prop :=
  ∀ f ∈ feeds, ColorsListOK f.active_stops

/-- Drain-one preserves the color invariant (the only insertion colors the
entry first). -/
theorem update_colorsOK (routes : RoutesMap) {s s1 : FeedProcessor}
    (h : s.update routes = some s1) (hc : ColorsListOK s.active_stops) :
    ColorsListOK s1.active_stops := by
  rcases update_cases routes h with ⟨fe, _, _, heq⟩ | ⟨fe, route, _, _, heq⟩ | ⟨t, _, heq⟩
  · rw [heq]; exact hc
  · rw [heq]
    intro p hp
    rcases mem_insertA hp with h1 | h1
    · rw [h1]
      rfl
    · exact hc p h1
  · rw [heq]
    intro p hp
    exact hc p (mem_removeA hp)

/-- Every step of a processor run preserves the color invariant. -/
theorem runSteps_colorsOK (stops : StopsMap) (routes : RoutesMap) :
    ∀ (steps : List ProcStep) (s : FeedProcessor),
      ColorsListOK s.active_stops →
      ColorsListOK (runSteps stops routes steps s).active_stops
  | [], _, h => h
  | step :: rest, s, h => by
    apply runSteps_colorsOK stops routes rest
    cases step with
    | fetchMsg msg =>
      cases ho : s.fetch stops (some msg) with
      | none => simpa [applyStep, ho] using h
      | some s' =>
        have hs := fetch_active_stops ho
        show ColorsListOK (((s.fetch stops (some msg)).getD s).active_stops)
        rw [ho]
        simpa [hs] using h
    | drain =>
      cases ho : s.update routes with
      | none => simpa [applyStep, ho] using h
      | some s' =>
        have hs := update_colorsOK routes ho h
        show ColorsListOK (((s.update routes).getD s).active_stops)
        rw [ho]
        exact hs

/-- Every value of the first-wins merge fold comes from the folded list and
is keyed by its own station id. -/
theorem mem_foldl_insertIfAbsent :
    ∀ (l : List FeedEntity) (acc : List (String × FeedEntity))
      (q : String × FeedEntity),
      q ∈ l.foldl (fun acc fe => insertIfAbsentA acc fe.stop_id fe) acc →
      q ∈ acc ∨ (q.2 ∈ l ∧ q.1 = q.2.stop_id)
  | [], _, _, h => Or.inl h
  | fe :: rest, acc, q, h => by
    rw [List.foldl_cons] at h
    rcases mem_foldl_insertIfAbsent rest (insertIfAbsentA acc fe.stop_id fe) q h
      with h1 | h1
    · unfold insertIfAbsentA at h1
      by_cases hc : containsKeyA acc fe.stop_id = true
      · rw [if_pos hc] at h1
        exact Or.inl h1
      · rw [if_neg hc] at h1
        rcases List.mem_append.mp h1 with h2 | h2
        · exact Or.inl h2
        · simp only [List.mem_singleton] at h2
          subst h2
          exact Or.inr ⟨List.mem_cons.mpr (Or.inl rfl), rfl⟩
    · exact Or.inr ⟨List.mem_cons.mpr (Or.inr h1.1), h1.2⟩

/-- Every merge-result entry is one of the active entries, keyed by its
station id. -/
theorem mergeActive_lookup_mem {feeds : List FeedProcessor} {sid : String}
    {fe : FeedEntity} (h : lookupA (mergeActive feeds) sid = some fe) :
    fe ∈ allActiveEntries feeds ∧ fe.stop_id = sid := by
  have hmem := lookupA_mem h
  rcases mem_foldl_insertIfAbsent (stableSort feLeDesc (allActiveEntries feeds))
    [] (sid, fe) hmem with h1 | h1
  · cases h1
  · exact ⟨(stableSort_perm feLeDesc (allActiveEntries feeds)).mem_iff.mp h1.1,
      h1.2.symm⟩

/-- Entries of the merged map of well-colored feeds carry a color. -/
theorem mergeActive_colorsOK {feeds : List FeedProcessor} (hc : ColorsOK feeds)
    {sid : String} {fe : FeedEntity}
    (h : lookupA (mergeActive feeds) sid = some fe) : fe.color.isSome = true := by
  obtain ⟨hmem, _⟩ := mergeActive_lookup_mem h
  unfold allActiveEntries at hmem
  rw [List.mem_flatMap] at hmem
  obtain ⟨f, hf, hfe⟩ := hmem
  rw [List.mem_map] at hfe
  obtain ⟨p, hp, hpe⟩ := hfe
  rw [← hpe]
  exact hc f hf p hp

/-- Every station record of the snapshot emits successfully when the static
lookup succeeds and the merged entry (if any) is colored. -/
theorem emitRecord_isSome {stops : StopsMap} {feeds : List FeedProcessor}
    (hc : ColorsOK feeds) {stop_id : String}
    (hs : (lookupA stops stop_id).isSome = true) :
    (emitRecord stops (mergeActive feeds) stop_id).isSome = true := by
  obtain ⟨stop, hstop⟩ := Option.isSome_iff_exists.mp hs
  by_cases hk : containsKeyA (mergeActive feeds) stop_id = true
  · have hlk : (lookupA (mergeActive feeds) stop_id).isSome = true :=
      (lookupA_isSome_iff _ _).mpr hk
    obtain ⟨fe, hfe⟩ := Option.isSome_iff_exists.mp hlk
    obtain ⟨c, hcol⟩ := Option.isSome_iff_exists.mp (mergeActive_colorsOK hc hfe)
    unfold emitRecord
    rw [hk, hfe, hstop]
    simp [hcol]
  · have hk1 : containsKeyA (mergeActive feeds) stop_id = false := by
      cases h2 : containsKeyA (mergeActive feeds) stop_id
      · rfl
      · exact absurd h2 hk
    unfold emitRecord
    rw [hk1, hstop]
    simp

/-- Emitting all records succeeds when each one does. -/
theorem emitAll_isSome {stops : StopsMap} {ss : List (String × FeedEntity)} :
    ∀ {ids : List String},
      (∀ id ∈ ids, (emitRecord stops ss id).isSome = true) →
      (emitAll stops ss ids).isSome = true
  | [], _ => rfl
  | stop_id :: rest, h => by
    unfold emitAll
    obtain ⟨r, hr⟩ := Option.isSome_iff_exists.mp
      (h stop_id (List.mem_cons.mpr (Or.inl rfl)))
    have hrest := emitAll_isSome (fun i hi => h i (List.mem_cons.mpr (Or.inr hi)))
    obtain ⟨rs, hrs⟩ := Option.isSome_iff_exists.mp hrest
    rw [hr, hrs]
    rfl

/-- The published snapshot builds successfully for well-colored feeds over
resolvable station ids. -/
theorem buildSnapshot_isSome {stops : StopsMap} {parent_stops : List String}
    {feeds : List FeedProcessor} (hc : ColorsOK feeds)
    (hp : ∀ id ∈ parent_stops, (lookupA stops id).isSome = true) :
    (buildSnapshot stops parent_stops feeds).isSome = true := by
  unfold buildSnapshot buildStates
  have h := emitAll_isSome (fun id hi => emitRecord_isSome hc (hp id hi))
  obtain ⟨l, hl⟩ := Option.isSome_iff_exists.mp h
  rw [hl]
  rfl

/-! ### Claim C10 -/

/-- C10: from fresh processors, any sequences of `fetch`/`drain-one` calls
leave every active-set entry with a populated color (the only inserting
path colors the entry first), so the snapshot merge's color unwrap never
panics when every canonical station id resolves in the static
collection. -/
theorem c10_colors_resolved (stops : StopsMap) (routes : RoutesMap)
    (seqs : List (List ProcStep))
    (hp : ∀ id ∈ parentStops stops, (lookupA stops id).isSome = true) :
    ColorsOK (seqs.map (fun steps => runSteps stops routes steps initProc)) ∧
    (buildSnapshot stops (parentStops stops)
      (seqs.map (fun steps => runSteps stops routes steps initProc))).isSome
      = true := by
  have hc : ColorsOK (seqs.map (fun steps => runSteps stops routes steps initProc)) := by
    intro f hf
    rw [List.mem_map] at hf
    obtain ⟨steps, _, hrun⟩ := hf
    rw [← hrun]
    exact runSteps_colorsOK stops routes steps initProc (by simp [initProc, ColorsListOK])
  exact ⟨hc, buildSnapshot_isSome hc hp⟩

/-- C10 witness: the invariant and snapshot success on a concrete run that
fetched and drained one message. -/
theorem c10_witness :
    ColorsOK ([[ProcStep.fetchMsg (msgAt 1 "A"), ProcStep.drain]].map
      (fun steps => runSteps stopsEx routesEx steps initProc)) ∧
    (buildSnapshot stopsEx (parentStops stopsEx)
      ([[ProcStep.fetchMsg (msgAt 1 "A"), ProcStep.drain]].map
        (fun steps => runSteps stopsEx routesEx steps initProc))).isSome = true :=
  c10_colors_resolved stopsEx routesEx
    [[ProcStep.fetchMsg (msgAt 1 "A"), ProcStep.drain]] (by decide)

/-! ### The first-wins fold of the merge -/

/-- Lookup distributes over list append. -/
theorem lookupA_append {α : Type} (l1 l2 : List (String × α)) (k : String) :
    lookupA (l1 ++ l2) k = (lookupA l1 k).or (lookupA l2 k) := by
  unfold lookupA
  rw [List.find?_append]
  cases List.find? (fun p => p.1 = k) l1 <;> simp

/-- The first-wins fold resolves a station to the first sorted entry naming
it. -/
theorem lookup_mergeFold (sid : String) :
    ∀ (l : List FeedEntity) (acc : List (String × FeedEntity)),
      lookupA (l.foldl (fun acc fe => insertIfAbsentA acc fe.stop_id fe) acc) sid =
        (lookupA acc sid).or (l.find? (fun fe => fe.stop_id = sid))
  | [], acc => by cases h : lookupA acc sid <;> simp [h]
  | fe :: rest, acc => by
    rw [List.foldl_cons, lookup_mergeFold sid rest (insertIfAbsentA acc fe.stop_id fe)]
    unfold insertIfAbsentA
    by_cases hc : containsKeyA acc fe.stop_id = true
    · rw [if_pos hc]
      cases hacc : lookupA acc sid with
      | some w => simp [List.find?_cons]
      | none =>
        simp only [Option.none_or]
        rw [List.find?_cons]
        by_cases hfe : fe.stop_id = sid
        · exfalso
          have : containsKeyA acc sid = true := hfe ▸ hc
          have h2 := (lookupA_isSome_iff acc sid).mpr this
          rw [hacc] at h2
          cases h2
        · simp [hfe]
    · rw [if_neg hc]
      rw [lookupA_append]
      cases hacc : lookupA acc sid with
      | some w => simp
      | none =>
        simp only [Option.none_or]
        rw [List.find?_cons]
        by_cases hfe : fe.stop_id = sid
        · simp [lookupA, hfe]
        · simp [lookupA, hfe]

/-- The descending-timestamp comparison is total. -/
theorem feLeDesc_total (a b : FeedEntity) :
    feLeDesc a b = false → feLeDesc b a = true := by
  simp only [feLeDesc, decide_eq_false_iff_not, decide_eq_true_eq]
  omega

/-- The descending-timestamp comparison is transitive. -/
theorem feLeDesc_trans (a b c : FeedEntity) :
    feLeDesc a b = true → feLeDesc b c = true → feLeDesc a c = true := by
  simp only [feLeDesc, decide_eq_true_eq]
  omega

/-! ### Claim C6 -/

/-- C6: the cross-feed merge resolves every station present in any active
set to one of its own entries whose event timestamp is maximal among all
entries for that station — so with two distinct timestamps `t1 < t2` the
entry with `t2` wins — and a station with at least one active entry is
always present in the merge result. -/
theorem c6_merge_recency (feeds : List FeedProcessor) (sid : String) :
    (∀ e, lookupA (mergeActive feeds) sid = some e →
      e.stop_id = sid ∧ e ∈ allActiveEntries feeds ∧
      ∀ e1 ∈ allActiveEntries feeds, e1.stop_id = sid →
        e1.timestamp ≤ e.timestamp) ∧
    ((∃ e1 ∈ allActiveEntries feeds, e1.stop_id = sid) →
      (lookupA (mergeActive feeds) sid).isSome = true) := by
  have hperm := stableSort_perm feLeDesc (allActiveEntries feeds)
  have hsorted := pairwise_stableSort feLeDesc_total feLeDesc_trans
    (allActiveEntries feeds)
  have hfold : lookupA (mergeActive feeds) sid =
      (stableSort feLeDesc (allActiveEntries feeds)).find?
        (fun fe => fe.stop_id = sid) := by
    have h := lookup_mergeFold sid (stableSort feLeDesc (allActiveEntries feeds)) []
    simpa [lookupA] using h
  constructor
  · intro e he
    rw [hfold] at he
    have hsid : e.stop_id = sid := by simpa using List.find?_some he
    have hmem : e ∈ allActiveEntries feeds :=
      hperm.mem_iff.mp (List.mem_of_find?_eq_some he)
    refine ⟨hsid, hmem, fun e1 hm1 hs1 => ?_⟩
    have hm1s : e1 ∈ stableSort feLeDesc (allActiveEntries feeds) :=
      hperm.mem_iff.mpr hm1
    rcases find?_of_pairwise hsorted he e1 hm1s (by simpa using hs1) with h | h
    · rw [h]
    · simpa [feLeDesc] using h
  · intro ⟨e1, hm1, hs1⟩
    rw [hfold]
    rw [List.find?_isSome]
    exact ⟨e1, hperm.mem_iff.mpr hm1, by simpa using hs1⟩

/-- C6 witness: with the two active entries of `procW` for station `A`
carrying timestamps 1 and 2, the merged snapshot carries the entry with
timestamp 2. -/
theorem c6_witness :
    eW2.stop_id = "A" ∧ eW2 ∈ allActiveEntries [procW] ∧
    ∀ e1 ∈ allActiveEntries [procW], e1.stop_id = "A" →
      e1.timestamp ≤ eW2.timestamp :=
  (c6_merge_recency [procW] "A").1 eW2 (by decide)

/-! ### Equations of the tick loop -/

/-- The tick loop with no fuel does nothing. -/
theorem tickLoop_zero (stops : StopsMap) (routes : RoutesMap)
    (parent_stops : List String) (input : Option FeedMessage) (idx : Nat)
    (feeds : List FeedProcessor) :
    tickLoop stops routes parent_stops input idx 0 feeds =
      some { feeds := feeds, published := [], applied := 0, fetches := 0 } := rfl

/-- The tick loop panics on an out-of-range index. -/
theorem tickLoop_idx_none (stops : StopsMap) (routes : RoutesMap)
    (parent_stops : List String) (input : Option FeedMessage) (idx : Nat)
    (fuel : Nat) {feeds : List FeedProcessor} (hidx : feeds[idx]? = none) :
    tickLoop stops routes parent_stops input idx (fuel + 1) feeds = none := by
  unfold tickLoop
  rw [hidx]

/-- One applied-and-published iteration of the tick loop. -/
theorem tickLoop_applied_eq (stops : StopsMap) (routes : RoutesMap)
    (parent_stops : List String) (input : Option FeedMessage) (idx : Nat)
    (fuel : Nat) {feeds : List FeedProcessor} {feed feed1 : FeedProcessor}
    {snap : List StopInstance}
    (hidx : feeds[idx]? = some feed) (hup : feed.update routes = some feed1)
    (hbs : buildSnapshot stops parent_stops (feeds.set idx feed1) = some snap) :
    tickLoop stops routes parent_stops input idx (fuel + 1) feeds =
      (tickLoop stops routes parent_stops input idx fuel (feeds.set idx feed1)).map
        (fun r => { r with
          published := snap :: r.published,
          applied := r.applied + 1 }) := by
  conv_lhs => unfold tickLoop
  rw [hidx]
  simp [hup, hbs]

/-- The tick loop panics when the snapshot rebuild panics. -/
theorem tickLoop_snapshot_panic (stops : StopsMap) (routes : RoutesMap)
    (parent_stops : List String) (input : Option FeedMessage) (idx : Nat)
    (fuel : Nat) {feeds : List FeedProcessor} {feed feed1 : FeedProcessor}
    (hidx : feeds[idx]? = some feed) (hup : feed.update routes = some feed1)
    (hbs : buildSnapshot stops parent_stops (feeds.set idx feed1) = none) :
    tickLoop stops routes parent_stops input idx (fuel + 1) feeds = none := by
  unfold tickLoop
  rw [hidx]
  simp [hup, hbs]

/-- The tick loop panics when the refresh panics. -/
theorem tickLoop_fetch_panic (stops : StopsMap) (routes : RoutesMap)
    (parent_stops : List String) (input : Option FeedMessage) (idx : Nat)
    (fuel : Nat) {feeds : List FeedProcessor} {feed : FeedProcessor}
    (hidx : feeds[idx]? = some feed) (hup : feed.update routes = none)
    (hf : feed.fetch stops input = none) :
    tickLoop stops routes parent_stops input idx (fuel + 1) feeds = none := by
  unfold tickLoop
  rw [hidx]
  simp [hup, hf]

/-- The empty-queue branch: refresh, then one extra drain that applies an
operation, then stop — with no publish. -/
theorem tickLoop_refresh_applied_eq (stops : StopsMap) (routes : RoutesMap)
    (parent_stops : List String) (input : Option FeedMessage) (idx : Nat)
    (fuel : Nat) {feeds : List FeedProcessor} {feed feedF feedF1 : FeedProcessor}
    (hidx : feeds[idx]? = some feed) (hup : feed.update routes = none)
    (hf : feed.fetch stops input = some feedF)
    (hupF : feedF.update routes = some feedF1) :
    tickLoop stops routes parent_stops input idx (fuel + 1) feeds =
      some { feeds := feeds.set idx feedF1, published := [],
             applied := 1, fetches := 1 } := by
  unfold tickLoop
  rw [hidx]
  simp [hup, hf, hupF]

/-- The empty-queue branch when the extra drain applies nothing. -/
theorem tickLoop_refresh_noop_eq (stops : StopsMap) (routes : RoutesMap)
    (parent_stops : List String) (input : Option FeedMessage) (idx : Nat)
    (fuel : Nat) {feeds : List FeedProcessor} {feed feedF : FeedProcessor}
    (hidx : feeds[idx]? = some feed) (hup : feed.update routes = none)
    (hf : feed.fetch stops input = some feedF)
    (hupF : feedF.update routes = none) :
    tickLoop stops routes parent_stops input idx (fuel + 1) feeds =
      some { feeds := feeds.set idx feedF, published := [],
             applied := 0, fetches := 1 } := by
  unfold tickLoop
  rw [hidx]
  simp [hup, hf, hupF]

/-- Count bookkeeping of the tick loop: there are never more publishes than
applied operations, each applied operation beyond the publishes is the one
extra drain of a refresh, and at most one refresh happens. -/
theorem tickLoop_counts (stops : StopsMap) (routes : RoutesMap)
    (parent_stops : List String) (input : Option FeedMessage) (idx : Nat) :
    ∀ (fuel : Nat) (feeds : List FeedProcessor) (r : TickResult),
      tickLoop stops routes parent_stops input idx fuel feeds = some r →
      r.published.length ≤ r.applied ∧
      r.applied ≤ r.published.length + r.fetches ∧ r.fetches ≤ 1
  | 0, feeds, r => by
    intro h
    rw [tickLoop_zero] at h
    cases h
    simp
  | fuel + 1, feeds, r => by
    intro h
    cases hidx : feeds[idx]? with
    | none => rw [tickLoop_idx_none stops routes parent_stops input idx fuel hidx] at h; cases h
    | some feed =>
      cases hup : feed.update routes with
      | some feed1 =>
        cases hbs : buildSnapshot stops parent_stops (feeds.set idx feed1) with
        | none =>
          rw [tickLoop_snapshot_panic stops routes parent_stops input idx fuel
            hidx hup hbs] at h
          cases h
        | some snap =>
          rw [tickLoop_applied_eq stops routes parent_stops input idx fuel
            hidx hup hbs] at h
          obtain ⟨r0, hr0, heq⟩ := Option.map_eq_some'.mp h
          obtain ⟨h1, h2, h3⟩ := tickLoop_counts stops routes parent_stops input idx
            fuel (feeds.set idx feed1) r0 hr0
          cases heq
          refine ⟨?_, ?_, h3⟩ <;> simp only [List.length_cons] <;> omega
      | none =>
        cases hf : feed.fetch stops input with
        | none =>
          rw [tickLoop_fetch_panic stops routes parent_stops input idx fuel
            hidx hup hf] at h
          cases h
        | some feedF =>
          cases hupF : feedF.update routes with
          | some feedF1 =>
            rw [tickLoop_refresh_applied_eq stops routes parent_stops input idx fuel
              hidx hup hf hupF] at h
            cases h
            simp
          | none =>
            rw [tickLoop_refresh_noop_eq stops routes parent_stops input idx fuel
              hidx hup hf hupF] at h
            cases h
            simp

/-- Setting one well-colored processor keeps the whole list well-colored. -/
theorem colorsOK_set {feeds : List FeedProcessor} {idx : Nat}
    {f1 : FeedProcessor} (hc : ColorsOK feeds)
    (h1 : ColorsListOK f1.active_stops) : ColorsOK (feeds.set idx f1) := by
  intro f hf
  rcases List.mem_or_eq_of_mem_set hf with h | h
  · exact hc f h
  · rw [h]
    exact h1

/-- With enough queued operations, the tick loop spends all its fuel on
applied-and-published drains: no refresh happens and every applied operation
is published. -/
theorem tickLoop_drains (stops : StopsMap) (routes : RoutesMap)
    (parent_stops : List String) (input : Option FeedMessage) (idx : Nat)
    (hp : ∀ id ∈ parent_stops, (lookupA stops id).isSome = true) :
    ∀ (fuel : Nat) (feeds : List FeedProcessor) (feed : FeedProcessor),
      feeds[idx]? = some feed → fuel ≤ feed.queue.length → ColorsOK feeds →
      ∃ r, tickLoop stops routes parent_stops input idx fuel feeds = some r ∧
        r.applied = fuel ∧ r.fetches = 0 ∧ r.published.length = fuel
  | 0, feeds, feed, _, _, _ =>
    ⟨{ feeds := feeds, published := [], applied := 0, fetches := 0 },
      rfl, rfl, rfl, rfl⟩
  | fuel + 1, feeds, feed, hidx, hfuel, hc => by
    cases hq : feed.queue with
    | nil => rw [hq] at hfuel; simp at hfuel
    | cons op rest =>
      have hne : feed.queue ≠ [] := by rw [hq]; simp
      have hupSome : (feed.update routes).isSome = true := by
        cases hu : feed.update routes with
        | none => exact absurd ((update_none_iff routes feed).mp hu) hne
        | some feed1 => rfl
      obtain ⟨feed1, hup⟩ := Option.isSome_iff_exists.mp hupSome
      have hq1 : feed1.queue = rest := by
        rw [update_queue_tail routes hup, hq]
        rfl
      have hcf : ColorsListOK feed.active_stops := hc feed (List.getElem?_mem hidx)
      have hc1 : ColorsOK (feeds.set idx feed1) :=
        colorsOK_set hc (update_colorsOK routes hup hcf)
      have hlen : idx < feeds.length := (List.getElem?_eq_some.mp hidx).1
      have hidx1 : (feeds.set idx feed1)[idx]? = some feed1 :=
        List.getElem?_set_self (by simpa using hlen)
      have hfuel1 : fuel ≤ feed1.queue.length := by
        rw [hq1]
        rw [hq] at hfuel
        simpa using Nat.le_of_succ_le_succ (by simpa using hfuel)
      obtain ⟨snap, hbs⟩ := Option.isSome_iff_exists.mp
        (buildSnapshot_isSome hc1 hp)
      obtain ⟨r0, hr0, ha0, hf0, hp0⟩ := tickLoop_drains stops routes parent_stops
        input idx hp fuel (feeds.set idx feed1) feed1 hidx1 hfuel1 hc1
      refine ⟨{ r0 with
        published := snap :: r0.published,
        applied := r0.applied + 1 }, ?_, ?_, ?_, ?_⟩
      · rw [tickLoop_applied_eq stops routes parent_stops input idx fuel
          hidx hup hbs, hr0]
        rfl
      · simp [ha0]
      · simpa using hf0
      · simp [hp0]

/-- One manager tick, written through the tick loop. -/
theorem manager_update_eq (stops : StopsMap) (routes : RoutesMap)
    (parent_stops : List String) (input : Option FeedMessage)
    (m : FeedManager) {feed : FeedProcessor}
    (hidx : m.feeds[m.wrappedIdx]? = some feed) :
    m.update stops routes parent_stops input =
      (tickLoop stops routes parent_stops input m.wrappedIdx
          (batchSize feed.queue.length) m.feeds).map
        (fun r => ({ feeds := r.feeds, feed_idx := m.wrappedIdx + 1 }, r)) := by
  unfold FeedManager.update
  simp only []
  rw [hidx]

/-- A manager with no feed at the cursor panics on tick. -/
theorem manager_update_none (stops : StopsMap) (routes : RoutesMap)
    (parent_stops : List String) (input : Option FeedMessage)
    (m : FeedManager) (hidx : m.feeds[m.wrappedIdx]? = none) :
    m.update stops routes parent_stops input = none := by
  unfold FeedManager.update
  simp only []
  rw [hidx]

/-! ### Claim C5 -/

/-- C5: a manager tick on a processor with `n > 0` queued operations applies
exactly `max 1 ⌈n / 10⌉` operations (`batchSize n`) and performs no network
refresh, and any successful tick performs at most one network refresh. -/
theorem c5_batch_floor (stops : StopsMap) (routes : RoutesMap)
    (parent_stops : List String) (input : Option FeedMessage)
    (m : FeedManager) (feed : FeedProcessor)
    (hidx : m.feeds[m.wrappedIdx]? = some feed)
    (hc : ColorsOK m.feeds)
    (hp : ∀ id ∈ parent_stops, (lookupA stops id).isSome = true) :
    (0 < feed.queue.length →
      ∃ m1 r, m.update stops routes parent_stops input = some (m1, r) ∧
        r.applied = max 1 ((feed.queue.length + 9) / 10) ∧ r.fetches = 0) ∧
    (∀ m1 r, m.update stops routes parent_stops input = some (m1, r) →
      r.fetches ≤ 1) := by
  constructor
  · intro hlen
    have hbatch : batchSize feed.queue.length ≤ feed.queue.length := by
      unfold batchSize
      omega
    obtain ⟨r, hr, ha, hf, _⟩ := tickLoop_drains stops routes parent_stops input
      m.wrappedIdx hp (batchSize feed.queue.length) m.feeds feed hidx hbatch hc
    refine ⟨{ feeds := r.feeds, feed_idx := m.wrappedIdx + 1 }, r, ?_, ha, hf⟩
    rw [manager_update_eq stops routes parent_stops input m hidx, hr]
    rfl
  · intro m1 r h
    rw [manager_update_eq stops routes parent_stops input m hidx] at h
    obtain ⟨r0, hr0, heq⟩ := Option.map_eq_some'.mp h
    have hrr : r = r0 := by
      cases heq
      rfl
    rw [hrr]
    exact (tickLoop_counts stops routes parent_stops input m.wrappedIdx
      (batchSize feed.queue.length) m.feeds r0 hr0).2.2

/-- C5 witness: one tick on a one-feed manager with a one-operation queue
applies exactly one operation with no refresh — even with no network input
available. -/
theorem c5_witness :
    ∃ m1 r, mgrQ.update stopsEx routesEx (parentStops stopsEx) none
        = some (m1, r) ∧
      r.applied = max 1 ((procQR.queue.length + 9) / 10) ∧ r.fetches = 0 :=
  (c5_batch_floor stopsEx routesEx (parentStops stopsEx) none mgrQ procQR
    (by decide) (by unfold ColorsOK ColorsListOK; decide) (by decide)).1 (by decide)

/-! ### Claim C2 -/

/-- C2 counterexample: on an empty-queue visit with a fresh message, the
extra drain-one after the network refresh applies one operation, but the
tick publishes no snapshot at all — the operation is applied without a
subsequent publish in the same tick. -/
theorem c2_counterexample_unpublished_op :
    (FeedManager.update stopsEx routesEx (parentStops stopsEx)
        (some (msgAt 1 "A")) { feeds := [initProc], feed_idx := 0 }).map
      (fun r => (r.2.applied, r.2.published)) = some (1, []) := by decide

/-- C2 (amended): during a tick, every drain-one of the main batch path that
applies an operation is followed by a recompute-and-publish of the merged
snapshot, but the single extra drain-one performed after an empty-queue
network refresh is not: a successful tick has `publishes ≤ applied ≤
publishes + fetches` with at most one fetch, and when no refresh happened
every applied operation has its publish (`applied = publishes`). -/
theorem c2_amended_publish_per_op (stops : StopsMap) (routes : RoutesMap)
    (parent_stops : List String) (input : Option FeedMessage)
    (m m1 : FeedManager) (r : TickResult)
    (h : m.update stops routes parent_stops input = some (m1, r)) :
    r.published.length ≤ r.applied ∧
    r.applied ≤ r.published.length + r.fetches ∧ r.fetches ≤ 1 ∧
    (r.fetches = 0 → r.applied = r.published.length) := by
  cases hidx : m.feeds[m.wrappedIdx]? with
  | none =>
    rw [manager_update_none stops routes parent_stops input m hidx] at h
    cases h
  | some feed =>
    rw [manager_update_eq stops routes parent_stops input m hidx] at h
    obtain ⟨r0, hr0, heq⟩ := Option.map_eq_some'.mp h
    have hrr : r = r0 := by
      cases heq
      rfl
    obtain ⟨h1, h2, h3⟩ := tickLoop_counts stops routes parent_stops input
      m.wrappedIdx (batchSize feed.queue.length) m.feeds r0 hr0
    rw [hrr]
    exact ⟨h1, h2, h3, fun hf => by omega⟩

/-- C2 amended witness: the count relation at the concrete refresh tick of
the counterexample scenario (one applied operation, zero publishes, one
fetch). -/
theorem c2_amended_witness :
    c2Pair.2.published.length ≤ c2Pair.2.applied ∧
    c2Pair.2.applied ≤ c2Pair.2.published.length + c2Pair.2.fetches ∧
    c2Pair.2.fetches ≤ 1 ∧
    (c2Pair.2.fetches = 0 → c2Pair.2.applied = c2Pair.2.published.length) :=
  c2_amended_publish_per_op stopsEx routesEx (parentStops stopsEx)
    (some (msgAt 1 "A")) { feeds := [initProc], feed_idx := 0 }
    c2Pair.1 c2Pair.2 (by decide)

/-! ### The emitted station records -/

/-- A successful emit of all records emits one record per station id, in
order. -/
theorem emitAll_forall₂ {stops : StopsMap} {ss : List (String × FeedEntity)} :
    ∀ {ids : List String} {l0 : List StopState},
      emitAll stops ss ids = some l0 →
      List.Forall₂ (fun id r => emitRecord stops ss id = some r) ids l0
  | [], l0, h => by
    cases h
    exact List.Forall₂.nil
  | stop_id :: rest, l0, h => by
    unfold emitAll at h
    cases hr : emitRecord stops ss stop_id with
    | none => rw [hr] at h; cases h
    | some r =>
      cases hrest : emitAll stops ss rest with
      | none => rw [hr, hrest] at h; cases h
      | some rs =>
        rw [hr, hrest] at h
        cases h
        exact List.Forall₂.cons hr (emitAll_forall₂ hrest)

/-- What a successfully emitted record is: `Inactive` with the static
position and defaults off the merge result, `Active` with the static
position, the winning entry's color and scale one-half on it. -/
theorem emitRecord_inv {stops : StopsMap} {ss : List (String × FeedEntity)}
    {id : String} {r : StopState} (h : emitRecord stops ss id = some r) :
    (containsKeyA ss id = false →
      ∃ stop, lookupA stops id = some stop ∧
        r = StopState.inactive
          { position := (stop.coord.1, stop.coord.2, 0),
            color := (1, 1, 1), scale := 0 }) ∧
    (containsKeyA ss id = true →
      ∃ stop fe c, lookupA stops id = some stop ∧
        lookupA ss id = some fe ∧ fe.color = some c ∧
        r = StopState.active
          { position := (stop.coord.1, stop.coord.2, 0),
            color := c, scale := 1/2 }) := by
  by_cases hk : containsKeyA ss id = true
  · refine ⟨(fun hfalse => by rw [hfalse] at hk; cases hk), fun _ => ?_⟩
    unfold emitRecord at h
    rw [hk] at h
    simp only [Bool.true_eq_false, if_false] at h
    cases hstops : lookupA stops id with
    | none =>
      cases hss : lookupA ss id with
      | none => rw [hss, hstops] at h; cases h
      | some fe => rw [hss, hstops] at h; cases h
    | some stop =>
      cases hss : lookupA ss id with
      | none => rw [hss, hstops] at h; cases h
      | some fe =>
        rw [hss, hstops] at h
        have h3 : (match fe.color with
            | some c => some (StopState.active
                { position := (stop.coord.1, stop.coord.2, 0),
                  color := c, scale := 1/2 })
            | none => (none : Option StopState)) = some r := h
        cases hcol : fe.color with
        | none => rw [hcol] at h3; cases h3
        | some c =>
          rw [hcol] at h3
          cases h3
          exact ⟨stop, fe, c, rfl, rfl, hcol, rfl⟩
  · have hk1 : containsKeyA ss id = false := by
      cases h2 : containsKeyA ss id
      · rfl
      · exact absurd h2 hk
    refine ⟨fun _ => ?_, (fun htrue => by rw [htrue] at hk1; cases hk1)⟩
    unfold emitRecord at h
    rw [hk1] at h
    simp only [if_true] at h
    cases hstops : lookupA stops id with
    | none => rw [hstops] at h; cases h
    | some stop =>
      rw [hstops] at h
      cases h
      exact ⟨stop, rfl, rfl⟩

/-- The record-state comparison is total. -/
theorem stopStateLe_total (a b : StopState) :
    stopStateLe a b = false → stopStateLe b a = true := by
  cases a <;> cases b <;> simp [stopStateLe]

/-- The record-state comparison is transitive. -/
theorem stopStateLe_trans (a b c : StopState) :
    stopStateLe a b = true → stopStateLe b c = true → stopStateLe a c = true := by
  cases a <;> cases b <;> cases c <;> simp [stopStateLe]

/-! ### Claim C8 -/

/-- C8: a successfully built snapshot is a permutation of exactly one record
per canonical station of the static collection, in which a station absent
from the merge result yields an `Inactive` record with its static position
and default color/scale, a merged station yields an `Active` record with its
static position, the winning entry's resolved color and scale one-half; the
built list is ordered with every `Inactive` before every `Active`, and the
published instances are exactly its records' instance parts. -/
theorem c8_snapshot_complete (stops : StopsMap) (feeds : List FeedProcessor)
    (l : List StopState)
    (h : buildStates stops (parentStops stops) feeds = some l) :
    (∃ l0, List.Forall₂ (fun id r =>
        (containsKeyA (mergeActive feeds) id = false →
          ∃ stop, lookupA stops id = some stop ∧
            r = StopState.inactive
              { position := (stop.coord.1, stop.coord.2, 0),
                color := (1, 1, 1), scale := 0 }) ∧
        (containsKeyA (mergeActive feeds) id = true →
          ∃ stop fe c, lookupA stops id = some stop ∧
            lookupA (mergeActive feeds) id = some fe ∧ fe.color = some c ∧
            r = StopState.active
              { position := (stop.coord.1, stop.coord.2, 0),
                color := c, scale := 1/2 }))
      (parentStops stops) l0 ∧ l.Perm l0) ∧
    l.Pairwise (fun a b => a.isActive = true → b.isActive = true) ∧
    buildSnapshot stops (parentStops stops) feeds =
      some (l.map StopState.toInstance) := by
  have h2 := h
  unfold buildStates at h2
  obtain ⟨l0, hl0, hsort⟩ := Option.map_eq_some'.mp h2
  refine ⟨⟨l0, ?_, ?_⟩, ?_, ?_⟩
  · exact (emitAll_forall₂ hl0).imp (fun id r hr => emitRecord_inv hr)
  · rw [← hsort]
    exact stableSort_perm _ _
  · rw [← hsort]
    refine (pairwise_stableSort stopStateLe_total stopStateLe_trans l0).imp ?_
    intro a b hab ha
    cases a with
    | inactive x => cases ha
    | active x =>
      cases b with
      | inactive y => cases hab
      | active y => rfl
  · unfold buildSnapshot
    rw [h]
    rfl

/-- C8 witness: with no active feed, the two canonical stations of
`stopsEx` emit exactly the two `Inactive` records (both before any
`Active`), and the published instances are their instance parts. -/
theorem c8_witness :
    c8Records.Pairwise (fun a b => a.isActive = true → b.isActive = true) ∧
    buildSnapshot stopsEx (parentStops stopsEx) [] =
      some (c8Records.map StopState.toInstance) :=
  ⟨(c8_snapshot_complete stopsEx [] c8Records (by decide)).2.1,
   (c8_snapshot_complete stopsEx [] c8Records (by decide)).2.2⟩

end NycSubway
